import Mathlib

/-!
Verification of the pull-request size labeling script
(`.github/scripts/about-pr-test.js`).

The script has three parts, embedded below:
* `sizeCutoffs` / `getPullRequestSize` — the size classifier: a linear
  scan over an ordered threshold table;
* `labelPullRequestWithSize` — the label reconciler: adds the desired
  size label and removes every other size label, one API call at a time;
* `main` — the entry point: reads four environment values, fetches the
  pull-request stats, classifies, reconciles, and maps failures to an
  exit code.

Effectful code is embedded as explicit state passing: a `RunState`
carries the remote label list and the trace of API calls issued so far,
and a schedule `ok : Nat → Bool` says whether the i-th API call of the
process succeeds (`false` models a rejected request, which leaves the
remote state unchanged but still appears in the trace of issued calls).
-/

namespace AboutPr

/-- A bound from the cutoff table. `none` embeds JavaScript `Infinity`
(`x <= Infinity` is true for every number `x`). -/
def leBound (n : Nat) : Option Nat → Bool
  | none => true
  | some m => n ≤ m

/-- One entry of `sizeCutoffs`: the maximum number of files and lines. -/
structure Cutoff where
  maxFiles : Option Nat
  maxLines : Option Nat
  deriving Repr, DecidableEq

/-- The `sizeCutoffs` object of the script, as the ordered association
list that `Object.entries` yields (string keys in insertion order):
tiny, small, medium, large. -/
def sizeCutoffs : List (String × Cutoff) :=
  [("tiny", ⟨some 4, some 9⟩),
   ("small", ⟨some 9, some 49⟩),
   ("medium", ⟨some 9, some 249⟩),
   ("large", ⟨none, none⟩)]

/-- `Object.keys(sizeCutoffs)` — the known size labels, in order. -/
def allSizes : List String := sizeCutoffs.map Prod.fst

/-- The body of the `for (const [size, { maxFiles, maxLines }] of
Object.entries(sizeCutoffs))` loop in `getPullRequestSize`: return the
label of the first entry whose two bounds both hold; falling off the
loop end returns `undefined`, embedded as `none`. -/
def findSize : List (String × Cutoff) → Nat → Nat → Option String
  | [], _, _ => none
  | (size, c) :: rest, files, lines =>
    if leBound files c.maxFiles && leBound lines c.maxLines then some size
    else findSize rest files lines

/-- The fields of the "get pull request" API response that the script
reads: `additions`, `deletions`, `changed_files`. -/
structure PullData where
  additions : Nat
  deletions : Nat
  changed_files : Nat
  deriving Repr, DecidableEq

/-- `getPullRequestSize`, after the fetch: `numberLinesChanged =
data.deletions + data.additions`, `numberFilesChanged =
data.changed_files`, then the cutoff scan. -/
def getPullRequestSize (data : PullData) : Option String :=
  findSize sizeCutoffs data.changed_files (data.deletions + data.additions)

/-- An API request issued by the script (fetch stats, add labels,
remove one label). -/
inductive ApiCall where
  | getPR : ApiCall
  | addLabels : List String → ApiCall
  | removeLabel : String → ApiCall
  deriving Repr, DecidableEq

/-- Mutable context of one run: the remote label list of the pull
request, the trace of API calls issued so far, and the index the next
call will get in the success schedule. -/
structure RunState where
  labels : List String
  calls : List ApiCall
  nextIdx : Nat
  deriving Repr, DecidableEq

/-- Remote effect of the "add labels" endpoint for a single label:
GitHub adds the label if absent and returns the resulting label list
(adding a label that is already present is a no-op). -/
def addLabelSet (labels : List String) (l : String) : List String :=
  if labels.contains l then labels else labels ++ [l]

/-- The `for (const label of labelsToRemove)` loop of
`labelPullRequestWithSize`: issue one DELETE per stale label, awaited
sequentially; a rejected call aborts the loop with the remaining labels
still in place. -/
def removeLoop (ok : Nat → Bool) : List String → RunState → Except String Unit × RunState
  | [], st => (Except.ok (), st)
  | l :: rest, st =>
    let st1 : RunState :=
      ⟨st.labels, st.calls ++ [ApiCall.removeLabel l], st.nextIdx + 1⟩
    if ok st.nextIdx then
      removeLoop ok rest ⟨st1.labels.filter (fun x => x != l), st1.calls, st1.nextIdx⟩
    else (Except.error "RemoteRequestFailure", st1)

/-- The `labelsToRemove` local of `labelPullRequestWithSize`:
`allSizes.filter(s => s !== size && currentLabels.includes(s))`, where
`currentLabels` is the label list the POST response returned. -/
def labelsToRemove (currentLabels : List String) (size : String) : List String :=
  allSizes.filter (fun s => s != size && currentLabels.contains s)

/-- `labelPullRequestWithSize`: reject a size outside `allSizes` before
any API call; otherwise POST the label (the response `data` is the
resulting label list), compute `labelsToRemove = allSizes.filter(s =>
s !== size && currentLabels.includes(s))`, and delete them one by one. -/
def labelPullRequestWithSize (ok : Nat → Bool) (size : String) (st : RunState) :
    Except String Unit × RunState :=
  if allSizes.contains size = false then
    (Except.error ("Invalid size label: " ++ size), st)
  else
    let st1 : RunState :=
      ⟨st.labels, st.calls ++ [ApiCall.addLabels [size]], st.nextIdx + 1⟩
    if ok st.nextIdx then
      let currentLabels := addLabelSet st.labels size
      removeLoop ok (labelsToRemove currentLabels size) ⟨currentLabels, st1.calls, st1.nextIdx⟩
    else (Except.error "RemoteRequestFailure", st1)

/-- The four environment values the entry point reads. A `process.env`
entry is either unset (`none`) or a string; the guard `!TOKEN` treats
the empty string like an unset value. -/
structure Env where
  TOKEN : Option String
  REPO_OWNER : Option String
  REPO_NAME : Option String
  PR_NUMBER : Option String
  deriving Repr, DecidableEq

/-- JavaScript falsiness of a `process.env` value: `undefined` and the
empty string are falsy, every other string is truthy. -/
def falsyEnv : Option String → Bool
  | none => true
  | some s => s == ""

/-- The guard `!TOKEN || !REPO_OWNER || !REPO_NAME || !PR_NUMBER`. -/
def envMissing (e : Env) : Bool :=
  falsyEnv e.TOKEN || falsyEnv e.REPO_OWNER || falsyEnv e.REPO_NAME || falsyEnv e.PR_NUMBER

/-- The main IIFE: returns the process exit code and the trace of API
calls issued. Missing configuration exits 1 before any call; a failed
stat fetch (call 0) is caught and exits 1; otherwise the classifier
runs and the reconciler is invoked (its calls get indices from 1); a
thrown reconciliation error is caught and exits 1, success exits 0.
When the classifier scan falls off the table it yields `undefined`, and
`allSizes.includes(undefined)` fails inside the reconciler before any
further API call, so that branch exits 1 with only the fetch issued. -/
def main (e : Env) (ok : Nat → Bool) (pr : PullData) (labels0 : List String) :
    Nat × List ApiCall :=
  if envMissing e then (1, [])
  else if ok 0 = false then (1, [ApiCall.getPR])
  else
    match getPullRequestSize pr with
    | none => (1, [ApiCall.getPR])
    | some size =>
      match labelPullRequestWithSize ok size ⟨labels0, [ApiCall.getPR], 1⟩ with
      | (Except.ok _, st) => (0, st.calls)
      | (Except.error _, st) => (1, st.calls)

/-- The classification algorithm as §4.1 of the spec states it:
"iterate the threshold table in its defined order; return the label of
the first entry where `filesChanged <= maxFiles AND linesChanged <=
maxLines`", with `linesChanged` the sum `additions + deletions`. -/
def classifySpec (filesChanged linesChanged : Nat) : Option String :=
  (sizeCutoffs.find?
    (fun p => leBound filesChanged p.2.maxFiles && leBound linesChanged p.2.maxLines)).map
    Prod.fst

lemma findSize_eq_find (t : List (String × Cutoff)) (f l : Nat) :
    findSize t f l =
      (t.find? (fun p => leBound f p.2.maxFiles && leBound l p.2.maxLines)).map Prod.fst := by
  induction t with
  | nil => rfl
  | cons p rest ih =>
    obtain ⟨s, c⟩ := p
    by_cases h : (leBound f c.maxFiles && leBound l c.maxLines) = true
    · simp [findSize, List.find?, h]
    · simp only [findSize, List.find?, h, Bool.false_eq_true, if_false, ih]

lemma findSize_total (f l : Nat) :
    ∃ s, findSize sizeCutoffs f l = some s ∧ s ∈ allSizes := by
  simp only [sizeCutoffs, findSize, leBound, allSizes]
  split_ifs <;> simp_all [sizeCutoffs]

lemma getPullRequestSize_total (d : PullData) :
    ∃ s, getPullRequestSize d = some s ∧ allSizes.contains s = true := by
  obtain ⟨s, hs, hmem⟩ := findSize_total d.changed_files (d.deletions + d.additions)
  exact ⟨s, hs, by simpa [List.contains, List.elem_eq_mem] using hmem⟩

/-- C1: for every pair of non-negative integers (filesChanged,
linesChanged), the classifier's table scan returns exactly one label,
and that label is one of tiny, small, medium, large; no input falls off
the table unmatched. -/
theorem classifier_total (files lines : Nat) :
    ∃ s, findSize sizeCutoffs files lines = some s ∧
      s ∈ ["tiny", "small", "medium", "large"] ∧
      ∀ t, findSize sizeCutoffs files lines = some t → t = s := by
  obtain ⟨s, hs, hmem⟩ := findSize_total files lines
  refine ⟨s, hs, ?_, fun t ht => by rw [hs] at ht; exact (Option.some_inj.mp ht).symm⟩
  simpa [allSizes, sizeCutoffs] using hmem

/-- C1 witness: the classifier is total and single-valued at (0, 0). -/
theorem classifier_total_witness :
    ∃ s, findSize sizeCutoffs 0 0 = some s ∧
      s ∈ ["tiny", "small", "medium", "large"] ∧
      ∀ t, findSize sizeCutoffs 0 0 = some t → t = s :=
  classifier_total 0 0

/-- C2: the classifier maps the boundary inputs (4 files, 9 lines) to
tiny; (5, 9) to small; (9, 49) to small; (9, 50) to medium; (9, 249) to
medium; (10, 0) to large. -/
theorem classifier_boundaries :
    findSize sizeCutoffs 4 9 = some "tiny" ∧
    findSize sizeCutoffs 5 9 = some "small" ∧
    findSize sizeCutoffs 9 49 = some "small" ∧
    findSize sizeCutoffs 9 50 = some "medium" ∧
    findSize sizeCutoffs 9 249 = some "medium" ∧
    findSize sizeCutoffs 10 0 = some "large" := by
  refine ⟨rfl, rfl, rfl, rfl, rfl, rfl⟩

/-- C6: `getPullRequestSize` classifies with `linesChanged = additions
+ deletions` and `filesChanged = changed_files`, scanning the threshold
table in its defined order and returning the first entry whose two
bounds both hold — it agrees with the spec's `classifySpec` algorithm
on every fetched pull request. -/
theorem getPullRequestSize_agrees_spec (d : PullData) :
    getPullRequestSize d = classifySpec d.changed_files (d.additions + d.deletions) := by
  unfold getPullRequestSize classifySpec
  rw [findSize_eq_find, Nat.add_comm d.deletions d.additions]

lemma contains_eq_decide_mem (l : List String) (a : String) :
    l.contains a = decide (a ∈ l) :=
  List.elem_eq_mem a l

lemma mem_addLabelSet_self (labels : List String) (size : String) :
    size ∈ addLabelSet labels size := by
  unfold addLabelSet
  split
  · next h => exact List.mem_of_elem_eq_true h
  · exact List.mem_append_right _ (List.mem_singleton.mpr rfl)

lemma removeLoop_ok (ok : Nat → Bool) (toRemove : List String) (st : RunState)
    (h : ∀ j, j < toRemove.length → ok (st.nextIdx + j) = true) :
    removeLoop ok toRemove st =
      (Except.ok (),
        ⟨st.labels.filter (fun x => !(toRemove.contains x)),
          st.calls ++ toRemove.map ApiCall.removeLabel,
          st.nextIdx + toRemove.length⟩) := by
  induction toRemove generalizing st with
  | nil => simp [removeLoop]
  | cons l rest ih =>
    have h0 : ok st.nextIdx = true := by simpa using h 0 (by simp)
    have hrest : ∀ j, j < rest.length →
        ok (st.nextIdx + 1 + j) = true := by
      intro j hj
      have := h (j + 1) (by simpa using Nat.succ_lt_succ hj)
      simpa [Nat.add_assoc, Nat.add_comm 1 j] using this
    simp only [removeLoop, h0, if_true]
    rw [ih _ hrest]
    refine congrArg _ ?_
    refine RunState.mk.injEq .. ▸ ⟨?_, ?_, ?_⟩
    · rw [List.filter_filter]
      refine List.filter_congr fun x _ => ?_
      simp [List.contains_cons, Bool.not_or, bne, Bool.and_comm, Bool.beq_eq_decide_eq]
    · simp [List.append_assoc]
    · simp [List.length_cons]; omega

lemma removeLoop_fail (ok : Nat → Bool) (toRemove : List String) (st : RunState) (k : Nat)
    (hk : k < toRemove.length)
    (hpre : ∀ j, j < k → ok (st.nextIdx + j) = true)
    (hfail : ok (st.nextIdx + k) = false) :
    removeLoop ok toRemove st =
      (Except.error "RemoteRequestFailure",
        ⟨st.labels.filter (fun x => !((toRemove.take k).contains x)),
          st.calls ++ (toRemove.take (k + 1)).map ApiCall.removeLabel,
          st.nextIdx + k + 1⟩) := by
  induction toRemove generalizing st k with
  | nil => exact absurd hk (by simp)
  | cons l rest ih =>
    cases k with
    | zero =>
      have h0 : ok st.nextIdx = false := by simpa using hfail
      simp [removeLoop, h0]
    | succ k =>
      have h0 : ok st.nextIdx = true := by simpa using hpre 0 (Nat.succ_pos k)
      have hpre1 : ∀ j, j < k → ok (st.nextIdx + 1 + j) = true := by
        intro j hj
        have := hpre (j + 1) (Nat.succ_lt_succ hj)
        simpa [Nat.add_assoc, Nat.add_comm 1 j] using this
      have hfail1 : ok (st.nextIdx + 1 + k) = false := by
        have := hfail
        simpa [Nat.add_assoc, Nat.add_comm 1 k] using this
      simp only [removeLoop, h0, if_true]
      rw [ih _ k (by simpa using Nat.lt_of_succ_lt_succ (by simpa using hk)) hpre1 hfail1]
      refine congrArg _ ?_
      refine RunState.mk.injEq .. ▸ ⟨?_, ?_, ?_⟩
      · rw [List.take_succ_cons, List.filter_filter]
        refine List.filter_congr fun x _ => ?_
        simp [List.contains_cons, Bool.not_or, bne, Bool.and_comm, Bool.beq_eq_decide_eq]
      · simp [List.take_succ_cons, List.append_assoc]
      · dsimp only; omega

lemma filter_not_labelsToRemove (current : List String) (size : String) :
    current.filter (fun x => !((labelsToRemove current size).contains x)) =
      current.filter (fun l => !(allSizes.contains l && l != size)) := by
  refine List.filter_congr fun x hx => ?_
  simp [contains_eq_decide_mem, labelsToRemove, List.mem_filter, hx, Bool.and_comm,
    bne, Bool.beq_eq_decide_eq]

lemma labelPR_ok (ok : Nat → Bool) (size : String) (st : RunState)
    (hsize : allSizes.contains size = true)
    (hok : ∀ j, j ≤ (labelsToRemove (addLabelSet st.labels size) size).length →
      ok (st.nextIdx + j) = true) :
    labelPullRequestWithSize ok size st =
      (Except.ok (),
        ⟨(addLabelSet st.labels size).filter (fun l => !(allSizes.contains l && l != size)),
          st.calls ++ ApiCall.addLabels [size] ::
            (labelsToRemove (addLabelSet st.labels size) size).map ApiCall.removeLabel,
          st.nextIdx + 1 + (labelsToRemove (addLabelSet st.labels size) size).length⟩) := by
  have h0 : ok st.nextIdx = true := by simpa using hok 0 (Nat.zero_le _)
  have hrest : ∀ j, j < (labelsToRemove (addLabelSet st.labels size) size).length →
      ok (st.nextIdx + 1 + j) = true := by
    intro j hj
    have := hok (j + 1) (by omega)
    simpa [Nat.add_assoc, Nat.add_comm 1 j] using this
  simp only [labelPullRequestWithSize, hsize, Bool.true_eq_false, if_false, h0, if_true]
  rw [removeLoop_ok ok _ _ hrest]
  refine congrArg _ ?_
  refine RunState.mk.injEq .. ▸ ⟨?_, ?_, rfl⟩
  · exact filter_not_labelsToRemove _ _
  · simp

/-- C3: for every current label set and valid desired size label, a
successful reconcile adds the desired label, issues DELETE calls for
exactly the size labels (other than the desired one) present on the
pull request, and the final label list keeps every non-size label: it
is the post-add list filtered of the other size labels only. -/
theorem reconcile_removes_stale (size : String) (labels0 : List String)
    (hsize : allSizes.contains size = true) :
    labelPullRequestWithSize (fun _ => true) size ⟨labels0, [], 0⟩ =
      (Except.ok (),
        ⟨(addLabelSet labels0 size).filter (fun l => !(allSizes.contains l && l != size)),
          ApiCall.addLabels [size] ::
            (labelsToRemove (addLabelSet labels0 size) size).map ApiCall.removeLabel,
          1 + (labelsToRemove (addLabelSet labels0 size) size).length⟩) := by
  have h := labelPR_ok (fun _ => true) size ⟨labels0, [], 0⟩ hsize (fun j _ => rfl)
  simpa using h

/-- C3 witness: with current labels {small, medium, "bug"} and desired
label "large", the reconciler adds "large", removes exactly small and
medium, and leaves {"bug", large}. -/
theorem reconcile_removes_stale_witness :
    allSizes.contains "large" = true ∧
    labelPullRequestWithSize (fun _ => true) "large" ⟨["small", "medium", "bug"], [], 0⟩ =
      (Except.ok (),
        ⟨["bug", "large"],
          [ApiCall.addLabels ["large"], ApiCall.removeLabel "small",
            ApiCall.removeLabel "medium"], 3⟩) :=
  ⟨rfl, (reconcile_removes_stale "large" ["small", "medium", "bug"] rfl).trans (by rfl)⟩

/-- C4: for every input label outside {tiny, small, medium, large},
the reconciler fails with the invalid-size-label error, issues zero API
calls, and leaves the remote label state exactly as it was. -/
theorem reconcile_invalid_size (ok : Nat → Bool) (size : String) (st : RunState)
    (h : allSizes.contains size = false) :
    labelPullRequestWithSize ok size st =
      (Except.error ("Invalid size label: " ++ size), st) := by
  unfold labelPullRequestWithSize
  rw [h]
  simp

/-- C4 witness: the label "huge" is rejected with no API call and an
unchanged state. -/
theorem reconcile_invalid_size_witness :
    allSizes.contains "huge" = false ∧
    labelPullRequestWithSize (fun _ => true) "huge" ⟨["bug"], [], 0⟩ =
      (Except.error ("Invalid size label: " ++ "huge"), ⟨["bug"], [], 0⟩) :=
  ⟨rfl, reconcile_invalid_size (fun _ => true) "huge" ⟨["bug"], [], 0⟩ rfl⟩

/-- C5: reconciling is idempotent — running a successful reconcile a
second time with the same desired label leaves the label list of the
first run unchanged, and adding a label that is already present does
not duplicate it. -/
theorem reconcile_idempotent (size : String) (labels0 : List String)
    (hsize : allSizes.contains size = true) :
    (labelPullRequestWithSize (fun _ => true) size
        ⟨(labelPullRequestWithSize (fun _ => true) size ⟨labels0, [], 0⟩).2.labels,
          [], 0⟩).2.labels =
      (labelPullRequestWithSize (fun _ => true) size ⟨labels0, [], 0⟩).2.labels ∧
    (labels0.contains size = true → addLabelSet labels0 size = labels0) := by
  constructor
  · have h1 := labelPR_ok (fun _ => true) size ⟨labels0, [], 0⟩ hsize (fun j _ => rfl)
    rw [h1]
    dsimp only
    have hmem : size ∈ (addLabelSet labels0 size).filter
        (fun l => !(allSizes.contains l && l != size)) := by
      refine List.mem_filter.mpr ⟨mem_addLabelSet_self _ _, ?_⟩
      simp
    have hc : ((addLabelSet labels0 size).filter
        (fun l => !(allSizes.contains l && l != size))).contains size = true := by
      rw [contains_eq_decide_mem]
      exact decide_eq_true hmem
    have h2 := labelPR_ok (fun _ => true) size
      ⟨(addLabelSet labels0 size).filter (fun l => !(allSizes.contains l && l != size)),
        [], 0⟩ hsize (fun j _ => rfl)
    rw [h2]
    dsimp only
    have hadd : addLabelSet
        ((addLabelSet labels0 size).filter (fun l => !(allSizes.contains l && l != size)))
        size =
        (addLabelSet labels0 size).filter (fun l => !(allSizes.contains l && l != size)) := by
      rw [addLabelSet, if_pos hc]
    rw [hadd, List.filter_filter]
    exact List.filter_congr fun x _ => Bool.and_self _
  · intro h
    rw [addLabelSet, if_pos h]

/-- C5 witness: reconciling "small" twice over current labels
{medium, "bug"} gives the same label list as reconciling it once. -/
theorem reconcile_idempotent_witness :
    allSizes.contains "small" = true ∧
    ((labelPullRequestWithSize (fun _ => true) "small"
        ⟨(labelPullRequestWithSize (fun _ => true) "small" ⟨["medium", "bug"], [], 0⟩).2.labels,
          [], 0⟩).2.labels =
      (labelPullRequestWithSize (fun _ => true) "small" ⟨["medium", "bug"], [], 0⟩).2.labels ∧
    (List.contains ["medium", "bug"] "small" = true →
      addLabelSet ["medium", "bug"] "small" = ["medium", "bug"])) :=
  ⟨rfl, reconcile_idempotent "small" ["medium", "bug"] rfl⟩

/-- C7: in the reconciler the POST that adds the label is issued before
every DELETE; when the (k+1)-st removal is rejected, the run stops with
the error, the first k stale labels stay removed, the remaining stale
labels are left in place (only k+1 DELETEs were issued), and the added
label is not reverted — it is still on the pull request. -/
theorem reconcile_partial_failure (ok : Nat → Bool) (size : String) (labels0 : List String)
    (k : Nat)
    (hsize : allSizes.contains size = true)
    (hadd : ok 0 = true)
    (hk : k < (labelsToRemove (addLabelSet labels0 size) size).length)
    (hpre : ∀ j, j < k → ok (1 + j) = true)
    (hfail : ok (1 + k) = false) :
    labelPullRequestWithSize ok size ⟨labels0, [], 0⟩ =
      (Except.error "RemoteRequestFailure",
        ⟨(addLabelSet labels0 size).filter
            (fun x => !(((labelsToRemove (addLabelSet labels0 size) size).take k).contains x)),
          ApiCall.addLabels [size] ::
            ((labelsToRemove (addLabelSet labels0 size) size).take (k + 1)).map
              ApiCall.removeLabel,
          k + 2⟩) ∧
    size ∈ (addLabelSet labels0 size).filter
        (fun x => !(((labelsToRemove (addLabelSet labels0 size) size).take k).contains x)) := by
  constructor
  · simp only [labelPullRequestWithSize, hsize, Bool.true_eq_false, if_false, hadd, if_true]
    rw [removeLoop_fail ok _ _ k hk hpre hfail]
    refine congrArg _ ?_
    refine RunState.mk.injEq .. ▸ ⟨rfl, ?_, ?_⟩
    · simp
    · dsimp only; omega
  · refine List.mem_filter.mpr ⟨mem_addLabelSet_self _ _, ?_⟩
    have hnot : size ∉ (labelsToRemove (addLabelSet labels0 size) size).take k := by
      intro hmem
      have hmem' := List.mem_of_mem_take hmem
      have := (List.mem_filter.mp hmem').2
      simp at this
    rw [contains_eq_decide_mem]
    simp [hnot]

/-- C7 witness: desired label "large" over current labels {tiny, small,
"bug"}, with the second DELETE (call index 2) rejected: tiny is already
removed and stays removed, small is still present, "large" stays
added, and exactly the calls POST large, DELETE tiny, DELETE small were
issued. -/
theorem reconcile_partial_failure_witness :
    (∀ j, j < 1 → (fun i => decide (i < 2)) (1 + j) = true) ∧
    labelPullRequestWithSize (fun i => decide (i < 2)) "large"
        ⟨["tiny", "small", "bug"], [], 0⟩ =
      (Except.error "RemoteRequestFailure",
        ⟨["small", "bug", "large"],
          [ApiCall.addLabels ["large"], ApiCall.removeLabel "tiny",
            ApiCall.removeLabel "small"], 3⟩) := by
  refine ⟨by decide, ?_⟩
  have h := (reconcile_partial_failure (fun i => decide (i < 2)) "large" ["tiny", "small", "bug"]
    1 (by decide) (by decide) (by decide) (by decide) (by decide)).1
  exact h.trans (by rfl)

/-- C8: if any of the four required environment values TOKEN,
REPO_OWNER, REPO_NAME, PR_NUMBER is absent, the process exits with
status 1 and issues no API call. -/
theorem missing_env_exits_one (e : Env) (ok : Nat → Bool) (pr : PullData)
    (labels0 : List String)
    (h : e.TOKEN = none ∨ e.REPO_OWNER = none ∨ e.REPO_NAME = none ∨ e.PR_NUMBER = none) :
    main e ok pr labels0 = (1, []) := by
  have henv : envMissing e = true := by
    rcases h with h | h | h | h <;> simp [envMissing, falsyEnv, h]
  simp [main, henv]

/-- C8 witness: with TOKEN unset and the other three values present,
the run exits 1 with an empty call trace. -/
theorem missing_env_exits_one_witness :
    (⟨none, some "octocat", some "repo", some "42"⟩ : Env).TOKEN = none ∧
    main ⟨none, some "octocat", some "repo", some "42"⟩ (fun _ => true) ⟨1, 2, 3⟩ ["bug"] =
      (1, []) :=
  ⟨rfl, missing_env_exits_one ⟨none, some "octocat", some "repo", some "42"⟩
    (fun _ => true) ⟨1, 2, 3⟩ ["bug"] (Or.inl rfl)⟩

/-- C10: an environment value set to the empty string is treated like
an unset one — if any of the four required values is the empty string,
the process exits with status 1 and issues no API call. -/
theorem empty_env_exits_one (e : Env) (ok : Nat → Bool) (pr : PullData)
    (labels0 : List String)
    (h : e.TOKEN = some "" ∨ e.REPO_OWNER = some "" ∨ e.REPO_NAME = some "" ∨
      e.PR_NUMBER = some "") :
    main e ok pr labels0 = (1, []) := by
  have henv : envMissing e = true := by
    rcases h with h | h | h | h <;> simp [envMissing, falsyEnv, h]
  simp [main, henv]

/-- C10 witness: with PR_NUMBER set to the empty string, the run exits
1 with an empty call trace, exactly as when it is unset. -/
theorem empty_env_exits_one_witness :
    (⟨some "t", some "octocat", some "repo", some ""⟩ : Env).PR_NUMBER = some "" ∧
    main ⟨some "t", some "octocat", some "repo", some ""⟩ (fun _ => true) ⟨1, 2, 3⟩ ["bug"] =
      (1, []) :=
  ⟨rfl, empty_env_exits_one ⟨some "t", some "octocat", some "repo", some ""⟩
    (fun _ => true) ⟨1, 2, 3⟩ ["bug"] (Or.inr (Or.inr (Or.inr rfl)))⟩

/-- C9: with the configuration present, a failed stat fetch aborts the
run before any label mutation — the trace is exactly the fetch — with
exit code 1; and the exit code is 0 exactly when the fetch succeeds and
the reconcile run returns without error, so any fetch or reconcile
error exits non-zero and success exits zero. -/
theorem fetch_failure_and_exit_codes (e : Env) (ok : Nat → Bool) (pr : PullData)
    (labels0 : List String)
    (henv : envMissing e = false) :
    (ok 0 = false → main e ok pr labels0 = (1, [ApiCall.getPR])) ∧
    ((main e ok pr labels0).1 = 0 ↔
      ok 0 = true ∧ ∃ size, getPullRequestSize pr = some size ∧
        (labelPullRequestWithSize ok size ⟨labels0, [ApiCall.getPR], 1⟩).1 =
          Except.ok ()) := by
  constructor
  · intro h0
    simp [main, henv, h0]
  · by_cases h0 : ok 0 = true
    · obtain ⟨s, hs, hsz⟩ := getPullRequestSize_total pr
      rcases hres : labelPullRequestWithSize ok s ⟨labels0, [ApiCall.getPR], 1⟩ with ⟨r, st⟩
      cases r with
      | ok u =>
        have hmain : main e ok pr labels0 = (0, st.calls) := by
          simp [main, henv, h0, hs, hres]
        constructor
        · intro _
          exact ⟨h0, s, hs, by rw [hres]⟩
        · intro _
          rw [hmain]
      | error msg =>
        have hmain : main e ok pr labels0 = (1, st.calls) := by
          simp [main, henv, h0, hs, hres]
        constructor
        · intro hc
          rw [hmain] at hc
          exact absurd hc (by simp)
        · rintro ⟨-, t, ht, hok2⟩
          rw [hs] at ht
          injection ht with ht
          rw [← ht] at hok2
          rw [hres] at hok2
          exact absurd hok2 (by simp)
    · have h0' : ok 0 = false := by revert h0; cases ok 0 <;> simp
      constructor
      · intro hc
        simp [main, henv, h0'] at hc
      · rintro ⟨hok0, -⟩
        exact absurd hok0 h0

/-- C9 witness: with all four values present and the fetch rejected,
the run exits 1 having issued only the fetch. -/
theorem fetch_failure_and_exit_codes_witness :
    envMissing ⟨some "t", some "octocat", some "repo", some "42"⟩ = false ∧
    main ⟨some "t", some "octocat", some "repo", some "42"⟩ (fun _ => false) ⟨1, 2, 3⟩ ["bug"] =
      (1, [ApiCall.getPR]) :=
  ⟨rfl, (fetch_failure_and_exit_codes ⟨some "t", some "octocat", some "repo", some "42"⟩
    (fun _ => false) ⟨1, 2, 3⟩ ["bug"] rfl).1 rfl⟩

end AboutPr
